import Mathlib

/-!
Verification of the sattebaaz trading engine against its specification.

This file shallowly embeds the parts of the Rust code base that the spec's
claims are about:

* `signals/probability.rs` — the fair-probability model (over `ℝ`,
  with the standard normal CDF `Phi` defined as a Lebesgue integral of
  Mathlib's `gaussianPDFReal`);
* `bin/live_trade.rs` — reference-price calibration and the exit controller's
  sell-order escalation logic;
* `signals/arb_scanner.rs` and `models/market.rs` — the arbitrage scanner over
  order books (order books are association lists of price/size pairs, modelling
  the `BTreeMap`; `rust_decimal::Decimal` values are modelled as `ℚ`);
* `risk/risk_manager.rs` — the pre-flight order check;
* `models/position.rs` and `risk/position_manager.rs` — portfolio, positions,
  straddles, fills and resolutions (all monetary values as `ℚ`);
* `execution/order_builder.rs` — micro-unit (×10⁶) amount computation with its
  integer tick rounding (`f64` rounding is modelled exactly over `ℚ`).

Fields of the Rust structs that carry no semantic content for the verified
properties (timestamps, log strings, cryptographic material) are omitted.
-/

namespace Sattebaaz

/-! ## Core market model (`models/market.rs`, `models/order.rs`) -/

/-- Side of a binary market: the YES or the NO outcome token. -/
inductive Side
  | Yes
  | No
deriving DecidableEq, Repr

/-- Order lifetime policy, from `models/order.rs`. -/
inductive OrderType
  | GTC
  | GTD
  | FOK
  | FAK
deriving DecidableEq, Repr

/-- Buy or sell, from `models/order.rs`. -/
inductive OrderSide
  | Buy
  | Sell
deriving DecidableEq, Repr

/-- An order book for one outcome token (`models/market.rs`). The `BTreeMap`
of asks is modelled as a list of (price, size) pairs in ascending price order;
the bids list is in ascending price order as in the source `BTreeMap`. -/
structure OrderBook where
  token_id : String
  bids : List (ℚ × ℚ)
  asks : List (ℚ × ℚ)
deriving DecidableEq, Repr

/-- Best (lowest-priced) ask: `self.asks.iter().next()`. -/
def OrderBook.best_ask (b : OrderBook) : Option (ℚ × ℚ) :=
  b.asks.head?

/-- Available ask depth within `tolerance` of the best ask price:
`self.asks.range(..=best + tolerance).map(size).sum()`. -/
def OrderBook.ask_depth_within (b : OrderBook) (tolerance : ℚ) : ℚ :=
  match b.asks.head? with
  | none => 0
  | some best => ((b.asks.filter (fun pq => pq.1 ≤ best.1 + tolerance)).map Prod.snd).sum

/-! ## Volatility regimes and the arbitrage scanner
(`models/signal.rs`, `signals/arb_scanner.rs`) -/

/-- Volatility regime classification from `models/signal.rs`. -/
inductive VolRegime
  | Dead
  | Low
  | Medium
  | High
  | Extreme
deriving DecidableEq, Repr

/-- Minimum arbitrage edge per regime (`VolRegime::arb_min_edge`). -/
def VolRegime.arb_min_edge : VolRegime → ℚ
  | .Dead => 5/100
  | .Low => 3/100
  | .Medium => 2/100
  | .High => 2/100
  | .Extreme => 2/100

/-- Fill-probability penalty per regime (`VolRegime::fill_probability_penalty`). -/
def VolRegime.fill_probability_penalty : VolRegime → ℚ
  | .Dead => 95/100
  | .Low => 90/100
  | .Medium => 80/100
  | .High => 65/100
  | .Extreme => 50/100

/-- The arbitrage signal payload (`models/signal.rs`; timestamp omitted). -/
structure ArbSignal where
  yes_ask : ℚ
  no_ask : ℚ
  combined : ℚ
  edge : ℚ
  executable_size : ℚ
  expected_profit : ℚ
deriving DecidableEq, Repr

/-- The arbitrage scanner (`ArbScanner::scan`): checks best asks on both
sides, requires `edge ≥ regime.arb_min_edge` and
`expected_profit ≥ min_profit`, and emits the computed signal. -/
def ArbScanner.scan (yes_book no_book : OrderBook) (vol_regime : VolRegime)
    (min_profit : ℚ) : Option ArbSignal :=
  match yes_book.best_ask, no_book.best_ask with
  | some (yes_ask, _), some (no_ask, _) =>
    let combined := yes_ask + no_ask
    let edge := 1 - combined
    let min_edge := vol_regime.arb_min_edge
    if edge < min_edge then none
    else
      let tolerance : ℚ := 2/100
      let yes_depth := yes_book.ask_depth_within tolerance
      let no_depth := no_book.ask_depth_within tolerance
      let executable := min yes_depth no_depth
      let fill_penalty := vol_regime.fill_probability_penalty
      let expected_fill := executable * fill_penalty
      let expected_profit := expected_fill * edge
      if expected_profit < min_profit then none
      else some { yes_ask, no_ask, combined, edge,
                  executable_size := executable, expected_profit }
  | _, _ => none

/-! ## Positions and portfolio (`models/position.rs`) -/

/-- A directional position (`models/position.rs`; `opened_at` omitted). -/
structure Position where
  market_id : String
  token_id : String
  side : Side
  size : ℚ
  avg_entry_price : ℚ
  unrealized_pnl : ℚ
  strategy_tag : String
deriving DecidableEq, Repr

/-- Cost basis of a position: `size * avg_entry_price`. -/
def Position.cost_basis (p : Position) : ℚ :=
  p.size * p.avg_entry_price

/-- A straddle position (`models/position.rs`; `opened_at` omitted). -/
structure StraddlePosition where
  market_id : String
  yes_size : ℚ
  no_size : ℚ
  yes_avg_price : ℚ
  no_avg_price : ℚ
  combined_cost : ℚ
  guaranteed_profit : ℚ
deriving DecidableEq, Repr

/-- Constructor `StraddlePosition::new`. -/
def StraddlePosition.new (market_id : String) (yes_size no_size yes_avg_price
    no_avg_price : ℚ) : StraddlePosition :=
  let matched := min yes_size no_size
  let combined_price := yes_avg_price + no_avg_price
  let guaranteed := matched * (1 - combined_price)
  { market_id, yes_size, no_size, yes_avg_price, no_avg_price,
    combined_cost := yes_size * yes_avg_price + no_size * no_avg_price,
    guaranteed_profit := guaranteed }

/-- Size imbalance of a straddle: `(yes_size - no_size).abs()`. -/
def StraddlePosition.imbalance (s : StraddlePosition) : ℚ :=
  |s.yes_size - s.no_size|

/-- The side holding the excess size, if any (`StraddlePosition::excess_side`). -/
def StraddlePosition.excess_side (s : StraddlePosition) : Option Side :=
  if s.yes_size > s.no_size then some .Yes
  else if s.no_size > s.yes_size then some .No
  else none

/-- The portfolio singleton (`models/position.rs`). -/
structure Portfolio where
  capital : ℚ
  starting_capital : ℚ
  positions : List Position
  straddles : List StraddlePosition
  daily_pnl : ℚ
  total_pnl : ℚ
  consecutive_losses : ℕ
  total_trades : ℕ
  winning_trades : ℕ
deriving DecidableEq, Repr

/-- Constructor `Portfolio::new`. -/
def Portfolio.new (capital : ℚ) : Portfolio :=
  { capital, starting_capital := capital, positions := [], straddles := [],
    daily_pnl := 0, total_pnl := 0, consecutive_losses := 0,
    total_trades := 0, winning_trades := 0 }

/-- Total exposure: sum of position cost bases plus straddle combined costs. -/
def Portfolio.total_exposure (p : Portfolio) : ℚ :=
  (p.positions.map Position.cost_basis).sum
    + (p.straddles.map StraddlePosition.combined_cost).sum

/-! ## Order intents and fills (`models/order.rs`) -/

/-- A strategy's order request (`models/order.rs`). -/
structure OrderIntent where
  token_id : String
  market_side : Side
  order_side : OrderSide
  price : ℚ
  size : ℚ
  order_type : OrderType
  post_only : Bool
  expiration : Option ℕ
  strategy_tag : String
deriving DecidableEq, Repr

/-- A single execution (`models/order.rs`; timestamp omitted). -/
structure Fill where
  order_id : String
  token_id : String
  side : OrderSide
  price : ℚ
  size : ℚ
  fee : ℚ
deriving DecidableEq, Repr

/-! ## Risk manager pre-flight check (`risk/risk_manager.rs`) -/

/-- The risk limits used by the pre-flight check (`config.rs::RiskConfig`,
the two fields `check_order` reads). -/
structure RiskConfig where
  max_exposure_pct : ℚ
  max_daily_loss_pct : ℚ
deriving DecidableEq, Repr

/-- The pre-flight order check `RiskManager::check_order`. The kill-switch
atomic is passed as a boolean; the portfolio is read, never written, which the
state-passing wrapper `check_order_st` below makes explicit. -/
def check_order (killed : Bool) (config : RiskConfig) (portfolio : Portfolio)
    (order : OrderIntent) : Except String Unit :=
  if killed then .error "Kill switch is active - no new orders"
  else
    let current_exposure := portfolio.total_exposure
    let order_cost := order.price * order.size
    let new_exposure := current_exposure + order_cost
    let base_capital := max portfolio.starting_capital portfolio.capital
    let max_exposure := base_capital * config.max_exposure_pct
    if new_exposure > max_exposure then .error "Exposure limit"
    else
      let daily_loss_limit := portfolio.starting_capital * config.max_daily_loss_pct
      if portfolio.daily_pnl < -daily_loss_limit then .error "Daily loss limit breached"
      else
        let required := order.price * order.size
        if required > portfolio.capital then .error "Insufficient balance"
        else .ok ()

/-- State-passing form of the pre-flight check: the Rust method takes `&self`
and a shared read lock on the portfolio, so the portfolio component of the
result is the input portfolio. -/
def check_order_st (killed : Bool) (config : RiskConfig) (portfolio : Portfolio)
    (order : OrderIntent) : Except String Unit × Portfolio :=
  (check_order killed config portfolio order, portfolio)

/-! ## Position manager (`risk/position_manager.rs`) -/

/-- The predicate `record_fill` uses to locate an existing position:
`p.token_id == fill.token_id && p.market_id == market_id`. -/
def fill_position_matches (fill : Fill) (market_id : String) (pos : Position) : Bool :=
  decide (pos.token_id = fill.token_id ∧ pos.market_id = market_id)

/-- Replace the first element satisfying `p` by its image under `f`,
modelling mutation through `iter_mut().find(..)`. -/
def update_first {α : Type} (p : α → Bool) (f : α → α) : List α → List α
  | [] => []
  | x :: xs => if p x then f x :: xs else x :: update_first p f xs

/-- Record a fill (`PositionManager::record_fill`). A BUY averages into an
existing matching position or opens a new one and deducts
`price * size + fee` from capital; a SELL against a matching position books
realized P&L, returns the proceeds to capital and updates the streak
counters; a SELL with no matching position does nothing. -/
def record_fill (portfolio : Portfolio) (fill : Fill) (market_id : String)
    (side : Side) (strategy_tag : String) : Portfolio :=
  let matcher := fill_position_matches fill market_id
  match fill.side with
  | .Buy =>
    let positions :=
      if (portfolio.positions.find? matcher).isSome then
        update_first matcher (fun pos =>
          let total_cost := pos.avg_entry_price * pos.size + fill.price * fill.size
          let new_size := pos.size + fill.size
          { pos with
            size := new_size,
            avg_entry_price :=
              if new_size > 0 then total_cost / new_size else pos.avg_entry_price })
          portfolio.positions
      else
        portfolio.positions ++
          [{ market_id, token_id := fill.token_id, side, size := fill.size,
             avg_entry_price := fill.price, unrealized_pnl := 0, strategy_tag }]
    let cost := fill.price * fill.size + fill.fee
    { portfolio with positions, capital := portfolio.capital - cost }
  | .Sell =>
    match portfolio.positions.find? matcher with
    | none => portfolio
    | some pos =>
      let sell_proceeds := fill.price * fill.size - fill.fee
      let cost_basis := pos.avg_entry_price * fill.size
      let pnl := sell_proceeds - cost_basis
      let positions :=
        update_first matcher (fun q => { q with size := q.size - fill.size })
          portfolio.positions
      { portfolio with
        positions,
        capital := portfolio.capital + sell_proceeds,
        daily_pnl := portfolio.daily_pnl + pnl,
        total_pnl := portfolio.total_pnl + pnl,
        total_trades := portfolio.total_trades + 1,
        winning_trades :=
          if pnl > 0 then portfolio.winning_trades + 1 else portfolio.winning_trades,
        consecutive_losses :=
          if pnl > 0 then 0 else portfolio.consecutive_losses + 1 }

/-- P&L a resolved directional position contributes
(first pass of `record_resolution`). -/
def position_resolution_pnl (winning_side : Side) (pos : Position) : ℚ :=
  if pos.side = winning_side then pos.size - pos.cost_basis else -pos.cost_basis

/-- Capital credited for a resolved directional position: the $1-per-share
payout if it won, nothing otherwise. -/
def position_resolution_payout (winning_side : Side) (pos : Position) : ℚ :=
  if pos.side = winning_side then pos.size else 0

/-- P&L a resolved straddle contributes (straddle pass of
`record_resolution`): matched-pair profit, plus excess payout when the excess
side won, minus the cost of the excess. -/
def straddle_resolution_pnl (s : StraddlePosition) (winning_side : Side) : ℚ :=
  let matched := min s.yes_size s.no_size
  let straddle_payout := matched
  let straddle_cost := matched * (s.yes_avg_price + s.no_avg_price)
  let straddle_profit := straddle_payout - straddle_cost
  let excess := s.imbalance
  let excess_pnl :=
    match s.excess_side with
    | some excess_side => if excess_side = winning_side then excess else 0
    | none => 0
  let excess_cost :=
    if s.yes_size > s.no_size then excess * s.yes_avg_price
    else excess * s.no_avg_price
  straddle_profit + excess_pnl - excess_cost

/-- Capital credited for a resolved straddle: the matched payout plus the
excess payout when the excess side won. -/
def straddle_resolution_payout (s : StraddlePosition) (winning_side : Side) : ℚ :=
  let matched := min s.yes_size s.no_size
  let excess_pnl :=
    match s.excess_side with
    | some excess_side => if excess_side = winning_side then s.imbalance else 0
    | none => 0
  matched + excess_pnl

/-- Record a market resolution (`PositionManager::record_resolution`):
aggregate P&L, payouts and trade counts over the market's positions and
straddles, purge them, and apply the aggregated mutations. -/
def record_resolution (portfolio : Portfolio) (market_id : String)
    (winning_side : Side) : Portfolio :=
  let resolved_pos := portfolio.positions.filter (fun pos => pos.market_id = market_id)
  let resolved_str := portfolio.straddles.filter (fun s => s.market_id = market_id)
  let pos_pnl := (resolved_pos.map (position_resolution_pnl winning_side)).sum
  let pos_payout := (resolved_pos.map (position_resolution_payout winning_side)).sum
  let pos_wins := (resolved_pos.filter (fun pos => pos.side = winning_side)).length
  let losses := (resolved_pos.filter (fun pos => ¬(pos.side = winning_side))).length
  let str_pnl := (resolved_str.map (fun s => straddle_resolution_pnl s winning_side)).sum
  let str_payout := (resolved_str.map (fun s => straddle_resolution_payout s winning_side)).sum
  let pnl := pos_pnl + str_pnl
  let capital_delta := pos_payout + str_payout
  let trades := resolved_pos.length + resolved_str.length
  let wins := pos_wins + resolved_str.length
  { portfolio with
    positions := portfolio.positions.filter (fun pos => ¬(pos.market_id = market_id)),
    straddles := portfolio.straddles.filter (fun s => ¬(s.market_id = market_id)),
    capital := portfolio.capital + capital_delta,
    total_trades := portfolio.total_trades + trades,
    winning_trades := portfolio.winning_trades + wins,
    consecutive_losses :=
      if losses > 0 then portfolio.consecutive_losses + losses
      else if wins > 0 then 0
      else portfolio.consecutive_losses,
    daily_pnl := portfolio.daily_pnl + pnl,
    total_pnl := portfolio.total_pnl + pnl }

/-! ## Event sequences over the position manager

The spec's invariant 2 quantifies over "sequences of valid fills and
resolutions". The spec does not pin down validity, so `ValidFill` encodes the
natural well-formedness of a fill against the current portfolio: non-negative
price, size and fee; a buyer can pay the full cost (notional plus fee); a
sale's fee does not exceed its notional and the sale does not exceed the
matching open position. -/

/-- Validity of a fill against the current portfolio state. -/
def ValidFill (portfolio : Portfolio) (fill : Fill) (market_id : String) : Bool :=
  decide (0 ≤ fill.price) && decide (0 ≤ fill.size) && decide (0 ≤ fill.fee) &&
    match fill.side with
    | .Buy => decide (fill.price * fill.size + fill.fee ≤ portfolio.capital)
    | .Sell =>
      decide (fill.fee ≤ fill.price * fill.size) &&
        match portfolio.positions.find? (fill_position_matches fill market_id) with
        | some pos => decide (fill.size ≤ pos.size)
        | none => true

/-- A position-manager event: a fill or a market resolution. -/
inductive TradeEvent
  | fill (f : Fill) (market_id : String) (side : Side) (strategy_tag : String)
  | resolution (market_id : String) (winning_side : Side)
deriving DecidableEq, Repr

/-- Apply one event to the portfolio. -/
def apply_event (portfolio : Portfolio) : TradeEvent → Portfolio
  | .fill f market_id side strategy_tag => record_fill portfolio f market_id side strategy_tag
  | .resolution market_id winning_side => record_resolution portfolio market_id winning_side

/-- Every fill in the sequence is valid at its point of application
(resolutions are always permitted). -/
def valid_events (portfolio : Portfolio) : List TradeEvent → Bool
  | [] => true
  | e :: es =>
    (match e with
     | .fill f market_id _ _ => ValidFill portfolio f market_id
     | .resolution _ _ => true) && valid_events (apply_event portfolio e) es

/-- Run a sequence of events through the position manager. -/
def run_events (portfolio : Portfolio) : List TradeEvent → Portfolio
  | [] => portfolio
  | e :: es => run_events (apply_event portfolio e) es

/-! ## Exit controller (`bin/live_trade.rs`, sell-order replacement)

The live binary keeps, per position, the identifier of the currently resting
GTC sell order (if any) and its type label "tp" | "sl" | "force". Each tick it
computes the desired type from remaining time, hold time and price change, and
cancels/replaces the resting order only when no order rests or the desired
type escalates the current one. -/

/-- Hard stop-loss threshold (`STOP_LOSS_PCT` in `bin/live_trade.rs`). -/
def STOP_LOSS_PCT : ℚ := 20/100

/-- Maximum hold time in seconds (`MAX_HOLD_SECS`). -/
def MAX_HOLD_SECS : ℚ := 120

/-- Pre-resolution exit window in seconds (`PRE_RESOLVE_EXIT_SECS`). -/
def PRE_RESOLVE_EXIT_SECS : ℚ := 90

/-- The three sell-order type labels "tp", "sl", "force". -/
inductive ExitOrderType
  | tp
  | sl
  | force
deriving DecidableEq, Repr

/-- Escalation rank of a sell-order type: tp < sl < force. -/
def exit_rank : ExitOrderType → ℕ
  | .tp => 0
  | .sl => 1
  | .force => 2

/-- Exit-relevant state of a live position: whether a sell order currently
rests (`sell_order_id.is_some()`) and the stored type label
(`sell_order_type`). -/
structure ExitState where
  has_order : Bool
  order_type : ExitOrderType
deriving DecidableEq, Repr

/-- The desired sell-order type computed each tick (`bin/live_trade.rs`,
step 4 of the exit controller). -/
def desired_exit_type (remaining hold_secs pct_change : ℚ) : ExitOrderType :=
  if remaining < 30 ∨ remaining < 60 ∨ hold_secs ≥ MAX_HOLD_SECS then .force
  else if pct_change ≤ -STOP_LOSS_PCT then .sl
  else if remaining < PRE_RESOLVE_EXIT_SECS ∧ pct_change > 2/100 then .sl
  else .tp

/-- Replacement condition (`needs_replacement` in `bin/live_trade.rs`):
no resting order, or escalation to "force", or escalation "tp" to "sl". -/
def needs_replacement (st : ExitState) (desired : ExitOrderType) : Bool :=
  !st.has_order
    || decide (desired = .force ∧ ¬(st.order_type = .force))
    || decide (desired = .sl ∧ st.order_type = .tp)

/-- One tick of the exit controller's sell-order replacement for a position:
when replacement is needed, the resting order is cancelled
(`sell_order_id = None`) and a new GTC sell is posted; on success the state
records the new order and its type, on a rejected/failed post the position is
left with no resting order and the stale type label. -/
def exit_step (st : ExitState) (remaining hold_secs pct_change : ℚ)
    (place_ok : Bool) : ExitState :=
  let desired := desired_exit_type remaining hold_secs pct_change
  if needs_replacement st desired then
    if place_ok then { has_order := true, order_type := desired }
    else { st with has_order := false }
  else st

/-- Observable inputs of one exit-controller tick. -/
structure ExitTick where
  remaining : ℚ
  hold_secs : ℚ
  pct_change : ℚ
  place_ok : Bool
deriving DecidableEq, Repr

/-- Run the exit controller over a sequence of ticks. -/
def exit_run (st : ExitState) : List ExitTick → ExitState
  | [] => st
  | t :: ts => exit_run (exit_step st t.remaining t.hold_secs t.pct_change t.place_ok) ts

/-! ## Order builder micro-unit amounts (`execution/order_builder.rs`)

Monetary inputs are modelled as `ℚ`; the micro-unit (×10⁶) integer amounts
and their divisor arithmetic are exactly the `u64` computations of the
source. `f64::round` (round half away from zero) and `f64::floor` are modelled
exactly on `ℚ`, and the `as u64` cast by `Int.toNat` (negative values
saturate to zero). -/

/-- Rust `f64::round`: round half away from zero. -/
def rustRound (q : ℚ) : ℤ :=
  if 0 ≤ q then ⌊q + 1/2⌋ else -⌊-q + 1/2⌋

/-- Micro-unit share amount of the 2-decimal-truncated size:
`((size * 100).floor() / 100 * 1_000_000).round() as u64`. -/
def size_trunc_micro (size : ℚ) : ℕ :=
  (rustRound ((⌊size * 100⌋ : ℚ) / 100 * 1000000)).toNat

/-- Raw micro-unit collateral amount before tick alignment:
`(price * size_trunc * 1_000_000).round() as u64`. -/
def collateral_raw_micro (price size : ℚ) : ℕ :=
  (rustRound (price * ((⌊size * 100⌋ : ℚ) / 100) * 1000000)).toNat

/-- Maker/taker micro-unit amounts computed by `OrderBuilder::build` for an
order intent: divisor selection by order type and side, then ceiling
alignment of the maker amount and floor alignment of the taker amount. -/
def build_amounts (order_type : OrderType) (order_side : OrderSide)
    (price size : ℚ) : ℕ × ℕ :=
  let is_market_order := order_type = .FOK ∨ order_type = .FAK
  let divs : ℕ × ℕ :=
    if is_market_order then (10000, 100)
    else if order_side = .Sell then (10000, 100)
    else (100, 10000)
  let maker_div := divs.1
  let taker_div := divs.2
  match order_side with
  | .Buy =>
    let usdc_raw := collateral_raw_micro price size
    let usdc := ((usdc_raw + maker_div - 1) / maker_div) * maker_div
    let tokens_raw := size_trunc_micro size
    let tokens := (tokens_raw / taker_div) * taker_div
    (usdc, tokens)
  | .Sell =>
    let tokens_raw := size_trunc_micro size
    let tokens := ((tokens_raw + maker_div - 1) / maker_div) * maker_div
    let usdc_raw := collateral_raw_micro price size
    let usdc := (usdc_raw / taker_div) * taker_div
    (tokens, usdc)

/-- Maker/taker micro-unit amounts computed by
`OrderBuilder::build_market_order` (tick size 0.01: maker 2 decimals, taker 4
decimals), together with the raw maker/taker values it reports back. -/
def build_market_amounts (side : OrderSide) (amount price : ℚ) : ℕ × ℕ × ℚ × ℚ :=
  let price_rounded : ℚ := (rustRound (price * 100) : ℚ) / 100
  match side with
  | .Buy =>
    let cents := (⌊amount * 100⌋).toNat
    let maker := cents * 10000
    let raw_maker : ℚ := (cents : ℚ) / 100
    let raw_taker₀ := raw_maker / price_rounded
    let bips := (⌊raw_taker₀ * 10000⌋).toNat
    let taker := bips * 100
    let raw_taker : ℚ := (bips : ℚ) / 10000
    (maker, taker, raw_maker, raw_taker)
  | .Sell =>
    let cents := (⌊amount * 100⌋).toNat
    let maker := cents * 10000
    let raw_maker : ℚ := (cents : ℚ) / 100
    let raw_taker₀ := raw_maker * price_rounded
    let bips := (⌊raw_taker₀ * 10000⌋).toNat
    let taker := bips * 100
    let raw_taker : ℚ := (bips : ℚ) / 10000
    (maker, taker, raw_maker, raw_taker)

/-- The collateral-side micro amount of a market order: the maker amount for
a BUY (USDC spent), the taker amount for a SELL (USDC received). -/
def market_collateral_micro (side : OrderSide) (amount price : ℚ) : ℕ :=
  match side with
  | .Buy => (build_market_amounts .Buy amount price).1
  | .Sell => (build_market_amounts .Sell amount price).2.1

/-- The share-side micro amount of a market order: the taker amount for a BUY
(shares received), the maker amount for a SELL (shares sold). -/
def market_shares_micro (side : OrderSide) (amount price : ℚ) : ℕ :=
  match side with
  | .Buy => (build_market_amounts .Buy amount price).2.1
  | .Sell => (build_market_amounts .Sell amount price).1

/-- Round a micro amount to the nearest multiple of `d` (the reading of
"rounds to N decimals" as round-to-nearest at that granularity). -/
def round_to_mult (d n : ℕ) : ℕ :=
  (rustRound ((n : ℚ) / (d : ℚ))).toNat * d

/-- Round a micro amount up to the next multiple of `d`. -/
def ceil_to_mult (d n : ℕ) : ℕ :=
  ((n + d - 1) / d) * d

/-- Round a micro amount down to a multiple of `d`. -/
def floor_to_mult (d n : ℕ) : ℕ :=
  (n / d) * d

/-- The tick-rounding behaviour asserted by the spec, read literally: limit
BUYs round the collateral amount to the nearest 4-decimal tick and floor the
share amount to 2 decimals; limit SELLs round the share amount up to 2
decimals and floor the collateral amount to 4 decimals; market orders put the
collateral amount on the 2-decimal grid and the share amount on the 4-decimal
grid. -/
def tick_rounding_claim : Prop :=
  ∀ price size amount : ℚ, 0 ≤ price → 0 ≤ size → 0 ≤ amount →
    ((build_amounts .GTC .Buy price size).1 = round_to_mult 100 (collateral_raw_micro price size)
      ∧ (build_amounts .GTC .Buy price size).2 = floor_to_mult 10000 (size_trunc_micro size))
    ∧ ((build_amounts .GTC .Sell price size).1 = ceil_to_mult 10000 (size_trunc_micro size)
      ∧ (build_amounts .GTC .Sell price size).2 = floor_to_mult 100 (collateral_raw_micro price size))
    ∧ (∀ side : OrderSide,
        10000 ∣ market_collateral_micro side amount price
          ∧ 100 ∣ market_shares_micro side amount price)

/-! ## Fair-probability model (`signals/probability.rs`) and reference-price
calibration (`bin/live_trade.rs`)

The signal layer works on `f64`; it is modelled over `ℝ`. The standard normal
CDF used by the `statrs` crate (`Normal::new(0.0, 1.0).cdf`) is the
mathematical function `Phi` below, defined by integrating Mathlib's
`gaussianPDFReal 0 1`; its inverse (`inverse_cdf`) is `PhiInv`. -/

open MeasureTheory in
/-- The standard normal CDF: `Phi z = P(X ≤ z)` for `X ~ N(0, 1)`. -/
noncomputable def Phi (z : ℝ) : ℝ :=
  ∫ x in Set.Iic z, ProbabilityTheory.gaussianPDFReal 0 1 x

/-- The intended inverse of the standard normal CDF (the `statrs`
`inverse_cdf`); on the range of `Phi` it is a genuine right inverse. -/
noncomputable def PhiInv (p : ℝ) : ℝ :=
  Function.invFun Phi p

/-- The fair-probability model `ProbabilityModel::fair_prob_up`. `f64::clamp`
is `min (max x lo) hi`. -/
noncomputable def fair_prob_up (current_price open_price minutes_remaining
    vol_per_min momentum_adj : ℝ) : ℝ :=
  if minutes_remaining ≤ 0 then
    if current_price > open_price then 1 else 0
  else if open_price = 0 ∨ vol_per_min = 0 then 0.5
  else
    let pct_move := (current_price - open_price) / open_price
    let remaining_vol := vol_per_min * Real.sqrt minutes_remaining
    if remaining_vol = 0 then
      if pct_move > 0 then 1 else 0
    else
      let z_score := pct_move / remaining_vol
      let adjusted_z := z_score + momentum_adj
      min (max (Phi adjusted_z) 0.01) 0.99

/-- The behaviour of the fair-probability model as the spec describes it:
resolved markets return the indicator of `current > ref`; a zero reference
price or zero volatility returns one half; otherwise the clipped
normal-CDF probability of the scaled percentage move. -/
noncomputable def fair_prob_up_spec (current_price open_price minutes_remaining
    vol_per_min momentum_adj : ℝ) : ℝ :=
  if minutes_remaining ≤ 0 then
    if current_price > open_price then 1 else 0
  else if open_price = 0 ∨ vol_per_min = 0 then 1/2
  else
    min (max (Phi ((current_price - open_price) / open_price
      / (vol_per_min * Real.sqrt minutes_remaining) + momentum_adj)) 0.01) 0.99

/-- Reference-price calibration `calibrate_reference_price` from
`bin/live_trade.rs`: invert the book-implied probability into a z-score and
back out the open price implied by the current price. -/
noncomputable def calibrate_reference_price (btc_price book_yes_mid
    minutes_remaining vol_per_min : ℝ) : ℝ :=
  let p := min (max book_yes_mid 0.02) 0.98
  let z := PhiInv p
  let remaining_vol := vol_per_min * Real.sqrt minutes_remaining
  if remaining_vol < 1e-10 then btc_price
  else
    let pct_move := z * remaining_vol
    btc_price / (1 + pct_move)

section PhiFacts

open MeasureTheory ProbabilityTheory Set

/-- The standard normal density is everywhere positive. -/
lemma std_gaussian_pos (x : ℝ) : 0 < gaussianPDFReal 0 1 x :=
  gaussianPDFReal_pos 0 1 x one_ne_zero

/-- The standard normal density is integrable. -/
lemma std_gaussian_integrable : Integrable (gaussianPDFReal 0 1) :=
  integrable_gaussianPDFReal 0 1

/-- The standard normal density integrates to one. -/
lemma std_gaussian_total : ∫ x, gaussianPDFReal 0 1 x = 1 :=
  integral_gaussianPDFReal_eq_one 0 one_ne_zero

/-- The standard normal density is even. -/
lemma std_gaussian_even (x : ℝ) : gaussianPDFReal 0 1 (-x) = gaussianPDFReal 0 1 x := by
  simp [gaussianPDFReal, neg_sq]

/-- The CDF is non-negative. -/
lemma Phi_nonneg (z : ℝ) : 0 ≤ Phi z :=
  setIntegral_nonneg measurableSet_Iic fun x _ => (std_gaussian_pos x).le

/-- The CDF is at most one. -/
lemma Phi_le_one (z : ℝ) : Phi z ≤ 1 := by
  have h := setIntegral_le_integral (μ := volume) (s := Iic z) std_gaussian_integrable
    (Filter.Eventually.of_forall fun x => (std_gaussian_pos x).le)
  simpa [Phi, std_gaussian_total] using h

/-- Splitting the CDF across an interval. -/
lemma Phi_sub_Phi {a b : ℝ} (hab : a ≤ b) :
    Phi b - Phi a = ∫ x in Ioc a b, gaussianPDFReal 0 1 x := by
  have h : (∫ x in Iic a ∪ Ioc a b, gaussianPDFReal 0 1 x)
      = (∫ x in Iic a, gaussianPDFReal 0 1 x)
        + ∫ x in Ioc a b, gaussianPDFReal 0 1 x :=
    setIntegral_union (Iic_disjoint_Ioc (le_refl a)) measurableSet_Ioc
      std_gaussian_integrable.integrableOn std_gaussian_integrable.integrableOn
  rw [Iic_union_Ioc_eq_Iic hab] at h
  unfold Phi
  rw [h]
  ring

/-- The CDF is strictly monotone. -/
lemma Phi_strictMono : StrictMono Phi := by
  intro a b hab
  have hsub := Phi_sub_Phi hab.le
  have hpos : 0 < ∫ x in Ioc a b, gaussianPDFReal 0 1 x := by
    rw [setIntegral_pos_iff_support_of_nonneg_ae
      (Filter.Eventually.of_forall fun x => (std_gaussian_pos x).le)
      std_gaussian_integrable.integrableOn]
    have hsupp : Function.support (gaussianPDFReal 0 1) = univ :=
      eq_univ_of_forall fun x => Function.mem_support.mpr (std_gaussian_pos x).ne'
    rw [hsupp, univ_inter, Real.volume_Ioc]
    exact ENNReal.ofReal_pos.mpr (sub_pos.mpr hab)
  linarith

/-- The CDF at zero is one half, by symmetry of the density. -/
lemma Phi_zero : Phi 0 = 1/2 := by
  have hrefl : (∫ x in Iic (0:ℝ), gaussianPDFReal 0 1 (-x))
      = ∫ x in Ioi (0:ℝ), gaussianPDFReal 0 1 x := by
    simpa using integral_comp_neg_Iic (0:ℝ) (gaussianPDFReal 0 1)
  have heven : (∫ x in Iic (0:ℝ), gaussianPDFReal 0 1 (-x))
      = ∫ x in Iic (0:ℝ), gaussianPDFReal 0 1 x := by
    refine setIntegral_congr_fun measurableSet_Iic fun x _ => std_gaussian_even x
  have hIJ : Phi 0 = ∫ x in Ioi (0:ℝ), gaussianPDFReal 0 1 x := by
    unfold Phi
    rw [← heven, hrefl]
  have hsplit : Phi 0 + (∫ x in Ioi (0:ℝ), gaussianPDFReal 0 1 x) = 1 := by
    unfold Phi
    rw [intervalIntegral.integral_Iic_add_Ioi std_gaussian_integrable.integrableOn
      std_gaussian_integrable.integrableOn, std_gaussian_total]
  linarith

/-- Reflection identity for the CDF. -/
lemma Phi_neg (z : ℝ) : Phi (-z) = 1 - Phi z := by
  have hrefl : (∫ x in Ioi z, gaussianPDFReal 0 1 (-x))
      = ∫ x in Iic (-z), gaussianPDFReal 0 1 x :=
    integral_comp_neg_Ioi z (gaussianPDFReal 0 1)
  have heven : (∫ x in Ioi z, gaussianPDFReal 0 1 (-x))
      = ∫ x in Ioi z, gaussianPDFReal 0 1 x :=
    setIntegral_congr_fun measurableSet_Ioi fun x _ => std_gaussian_even x
  have hIJ : Phi (-z) = ∫ x in Ioi z, gaussianPDFReal 0 1 x := by
    unfold Phi
    rw [← hrefl, heven]
  have hsplit : Phi z + (∫ x in Ioi z, gaussianPDFReal 0 1 x) = 1 := by
    unfold Phi
    rw [intervalIntegral.integral_Iic_add_Ioi std_gaussian_integrable.integrableOn
      std_gaussian_integrable.integrableOn, std_gaussian_total]
  linarith

/-- The CDF is continuous. -/
lemma Phi_continuous : Continuous Phi := by
  have hprim : Continuous fun b => ∫ x in (0:ℝ)..b, gaussianPDFReal 0 1 x :=
    std_gaussian_integrable.continuous_primitive 0
  have heq : ∀ z, Phi z = Phi 0 + ∫ x in (0:ℝ)..z, gaussianPDFReal 0 1 x := by
    intro z
    have h := intervalIntegral.integral_Iic_sub_Iic (μ := volume)
      (f := gaussianPDFReal 0 1) (a := (0:ℝ)) (b := z)
      std_gaussian_integrable.integrableOn std_gaussian_integrable.integrableOn
    unfold Phi
    linarith
  have : Phi = fun z => Phi 0 + ∫ x in (0:ℝ)..z, gaussianPDFReal 0 1 x :=
    funext heq
  rw [this]
  exact continuous_const.add hprim

/-- The CDF tends to one at plus infinity. -/
lemma Phi_tendsto_one : Filter.Tendsto Phi Filter.atTop (nhds 1) := by
  have hmono : Monotone Phi := Phi_strictMono.monotone
  have hbdd : BddAbove (Set.range Phi) := ⟨1, by rintro _ ⟨z, rfl⟩; exact Phi_le_one z⟩
  have hlim := tendsto_atTop_ciSup hmono hbdd
  have hnat : Filter.Tendsto (fun n : ℕ => Phi n) Filter.atTop
      (nhds (∫ x, gaussianPDFReal 0 1 x)) := by
    have hunion : (⋃ n : ℕ, Iic (n : ℝ)) = univ := by
      refine eq_univ_of_forall fun x => mem_iUnion.mpr ⟨⌈x⌉₊, ?_⟩
      exact Nat.le_ceil x
    have h := tendsto_setIntegral_of_monotone (μ := volume)
      (s := fun n : ℕ => Iic ((n : ℕ) : ℝ)) (f := gaussianPDFReal 0 1)
      (fun n => measurableSet_Iic)
      (fun m n hmn => Iic_subset_Iic.mpr (by exact_mod_cast hmn))
      (by rw [hunion]; exact std_gaussian_integrable.integrableOn)
    rw [hunion] at h
    simpa [Phi, setIntegral_univ] using h
  rw [std_gaussian_total] at hnat
  have hsup_le : iSup Phi ≤ 1 := ciSup_le Phi_le_one
  have hle_sup : (1:ℝ) ≤ iSup Phi := by
    refine le_of_tendsto hnat (Filter.Eventually.of_forall fun n => ?_)
    exact le_ciSup hbdd _
  have : iSup Phi = 1 := le_antisymm hsup_le hle_sup
  rwa [this] at hlim

/-- The CDF attains every probability in the clamp band `[0.02, 0.98]`. -/
lemma Phi_surj_band {p : ℝ} (h1 : 0.02 ≤ p) (h2 : p ≤ 0.98) : ∃ z, Phi z = p := by
  obtain ⟨b, hb⟩ := (Phi_tendsto_one.eventually
    (eventually_ge_nhds (by norm_num : (0.98:ℝ) < 1))).exists
  have ha : Phi (-b) ≤ 0.02 := by
    rw [Phi_neg]; linarith
  have hab : -b ≤ b := by
    by_contra hcon
    push_neg at hcon
    have := Phi_strictMono.monotone hcon.le
    linarith
  have hmem : p ∈ Icc (Phi (-b)) (Phi b) := ⟨by linarith, by linarith⟩
  obtain ⟨z, _, hz⟩ := intermediate_value_Icc hab Phi_continuous.continuousOn hmem
  exact ⟨z, hz⟩

/-- On the clamp band the explicit inverse is a right inverse of the CDF. -/
lemma Phi_PhiInv {p : ℝ} (h1 : 0.02 ≤ p) (h2 : p ≤ 0.98) : Phi (PhiInv p) = p :=
  Function.invFun_eq (Phi_surj_band h1 h2)

/-- The inverse CDF sends one half to zero. -/
lemma PhiInv_half : PhiInv (1/2) = 0 := by
  have h := Function.leftInverse_invFun Phi_strictMono.injective 0
  rw [Phi_zero] at h
  exact h

end PhiFacts

/-! ## Claim theorems -/

/-- C1: for every input, the fair-probability model returns: if
`minutes_remaining ≤ 0`, then 1 if `current > ref` else 0; otherwise if
`ref = 0` or `σ = 0`, then 0.5; otherwise
`clip(Φ(pct_move / residual_vol + adjustment), 0.01, 0.99)` with
`pct_move = (current − ref) / ref` and `residual_vol = σ·√t`. In particular,
with `current = ref` and adjustment 0 (market not yet resolved) it returns
0.5, which also covers `σ = 0` with `current = ref`. -/
theorem fair_prob_up_matches_spec :
    (∀ current_price open_price minutes_remaining vol_per_min momentum_adj : ℝ,
      fair_prob_up current_price open_price minutes_remaining vol_per_min momentum_adj
        = fair_prob_up_spec current_price open_price minutes_remaining vol_per_min momentum_adj)
    ∧ (∀ open_price minutes_remaining vol_per_min : ℝ, 0 < minutes_remaining →
        fair_prob_up open_price open_price minutes_remaining vol_per_min 0 = 1/2) := by
  constructor
  · intro c r t σ adj
    unfold fair_prob_up fair_prob_up_spec
    by_cases ht : t ≤ 0
    · simp [ht]
    · simp only [if_neg ht]
      by_cases hro : r = 0 ∨ σ = 0
      · simp only [if_pos hro]
        norm_num
      · simp only [if_neg hro]
        push_neg at hro
        have ht' : (0:ℝ) < t := lt_of_not_le ht
        have hs : Real.sqrt t ≠ 0 := ne_of_gt (Real.sqrt_pos.mpr ht')
        have hrv : σ * Real.sqrt t ≠ 0 := mul_ne_zero hro.2 hs
        simp [hrv]
  · intro r t σ ht
    unfold fair_prob_up
    have ht' : ¬ t ≤ 0 := not_le.mpr ht
    simp only [if_neg ht']
    by_cases hro : r = 0 ∨ σ = 0
    · simp only [if_pos hro]
      norm_num
    · simp only [if_neg hro]
      push_neg at hro
      have hs : Real.sqrt t ≠ 0 := ne_of_gt (Real.sqrt_pos.mpr ht)
      have hrv : σ * Real.sqrt t ≠ 0 := mul_ne_zero hro.2 hs
      have hpct : (r - r)/r = 0 := by rw [sub_self, zero_div]
      simp only [hpct, hrv, if_neg, if_false]
      simp [hrv, Phi_zero]
      norm_num

/-- Witness for C1: at one minute remaining, unit volatility and
`current = ref` the model returns one half. -/
theorem fair_prob_up_matches_spec_witness :
    fair_prob_up 1 1 1 1 0 = 1/2 :=
  fair_prob_up_matches_spec.2 1 1 1 (by norm_num)

/-- C2: with both best asks present (and the books' ask maps sorted as the
`BTreeMap` guarantees), the arbitrage scanner emits a signal iff
`YES_ask + NO_ask ≤ 1 − regime_min_edge` and the expected profit — executable
size within 2¢ of top times the regime fill penalty times the edge — is at
least `min_profit`; the emitted signal carries exactly these computed
values. -/
theorem arb_scanner_signal_iff :
    ∀ (yes_book no_book : OrderBook) (vol_regime : VolRegime) (min_profit : ℚ)
      (ya ys na ns : ℚ),
      yes_book.asks.Pairwise (fun x y => x.1 < y.1) →
      no_book.asks.Pairwise (fun x y => x.1 < y.1) →
      yes_book.best_ask = some (ya, ys) →
      no_book.best_ask = some (na, ns) →
      ((ArbScanner.scan yes_book no_book vol_regime min_profit).isSome
        ↔ (ya + na ≤ 1 - vol_regime.arb_min_edge
            ∧ min_profit ≤ min (yes_book.ask_depth_within (2/100))
                (no_book.ask_depth_within (2/100))
              * vol_regime.fill_probability_penalty * (1 - (ya + na))))
      ∧ (∀ sig, ArbScanner.scan yes_book no_book vol_regime min_profit = some sig →
          sig = { yes_ask := ya, no_ask := na, combined := ya + na,
                  edge := 1 - (ya + na),
                  executable_size := min (yes_book.ask_depth_within (2/100))
                    (no_book.ask_depth_within (2/100)),
                  expected_profit := min (yes_book.ask_depth_within (2/100))
                      (no_book.ask_depth_within (2/100))
                    * vol_regime.fill_probability_penalty * (1 - (ya + na)) }) := by
  intro yes_book no_book vol_regime min_profit ya ys na ns hsy hsn hy hn
  unfold ArbScanner.scan
  rw [hy, hn]
  constructor
  · by_cases h1 : 1 - (ya + na) < vol_regime.arb_min_edge
    · simp only [if_pos h1]
      simp only [Option.isSome_none, Bool.false_eq_true, false_iff, not_and]
      intro hc
      exfalso
      linarith
    · simp only [if_neg h1]
      by_cases h2 : min (yes_book.ask_depth_within (2/100)) (no_book.ask_depth_within (2/100))
          * vol_regime.fill_probability_penalty * (1 - (ya + na)) < min_profit
      · simp only [if_pos h2]
        simp only [Option.isSome_none, Bool.false_eq_true, false_iff, not_and]
        intro _
        linarith
      · simp only [if_neg h2]
        simp only [Option.isSome_some, true_iff]
        exact ⟨by linarith [not_lt.mp h1], not_lt.mp h2⟩
  · intro sig hsig
    by_cases h1 : 1 - (ya + na) < vol_regime.arb_min_edge
    · simp only [if_pos h1] at hsig
      exact absurd hsig (by simp)
    · simp only [if_neg h1] at hsig
      by_cases h2 : min (yes_book.ask_depth_within (2/100)) (no_book.ask_depth_within (2/100))
          * vol_regime.fill_probability_penalty * (1 - (ya + na)) < min_profit
      · simp only [if_pos h2] at hsig
        exact absurd hsig (by simp)
      · simp only [if_neg h2] at hsig
        exact (Option.some_injective _ hsig).symm

/-- Witness for C2: a concrete arbitrage (YES ask 0.45, NO ask 0.43, Medium
regime, min profit 0.10) produces a signal. -/
theorem arb_scanner_signal_iff_witness :
    (ArbScanner.scan ⟨"yes", [(43/100, 100)], [(45/100, 100)]⟩
      ⟨"no", [(41/100, 100)], [(43/100, 80)]⟩ .Medium (1/10)).isSome = true :=
  (arb_scanner_signal_iff ⟨"yes", [(43/100, 100)], [(45/100, 100)]⟩
    ⟨"no", [(41/100, 100)], [(43/100, 80)]⟩ .Medium (1/10)
    (45/100) 100 (43/100) 80
    (by simp) (by simp) rfl rfl).1.mpr
    (by norm_num [OrderBook.ask_depth_within, VolRegime.arb_min_edge,
      VolRegime.fill_probability_penalty])

/-- C3: the risk manager's pre-flight check errors iff the kill switch is
set, or current exposure plus order notional exceeds
`max_exposure_pct × max(starting_capital, capital)`, or daily P&L is below
`−max_daily_loss_pct × starting_capital`, or the order notional exceeds
capital; and it never mutates the portfolio. -/
theorem check_order_error_iff :
    ∀ (killed : Bool) (config : RiskConfig) (portfolio : Portfolio)
      (order : OrderIntent),
      (check_order_st killed config portfolio order).2 = portfolio
      ∧ (¬ (check_order killed config portfolio order = .ok ())
        ↔ (killed = true
          ∨ portfolio.total_exposure + order.price * order.size
              > config.max_exposure_pct * max portfolio.starting_capital portfolio.capital
          ∨ portfolio.daily_pnl < -(config.max_daily_loss_pct * portfolio.starting_capital)
          ∨ order.price * order.size > portfolio.capital)) := by
  intro killed config portfolio order
  refine ⟨rfl, ?_⟩
  simp only [check_order]
  split_ifs with h1 h2 h3 h4
  · simp [h1]
  · simp only [ne_eq, reduceCtorEq, not_false_eq_true, true_iff]
    refine Or.inr (Or.inl ?_)
    rw [mul_comm]
    linarith
  · simp only [ne_eq, reduceCtorEq, not_false_eq_true, true_iff]
    refine Or.inr (Or.inr (Or.inl ?_))
    rw [mul_comm] at h3
    linarith
  · simp only [ne_eq, reduceCtorEq, not_false_eq_true, true_iff]
    exact Or.inr (Or.inr (Or.inr h4))
  · simp only [not_true_eq_false, false_iff, not_or]
    refine ⟨by simpa using h1, ?_, ?_, by linarith [not_lt.mp h4]⟩
    · rw [mul_comm]
      linarith [not_lt.mp h2]
    · rw [mul_comm]
      linarith [not_lt.mp h3]

/-- C5: a straddle recorded with equal YES and NO sizes `s` at combined
average price `c < 1` stores `guaranteed_profit = s × (1 − c)`; whichever
side wins, the P&L `record_resolution` realizes for that straddle is at least
the guaranteed profit (here: exactly equal), and on a portfolio holding just
that straddle `record_resolution` books exactly that P&L. -/
theorem straddle_guaranteed_profit :
    ∀ (market_id : String) (s yes_avg_price no_avg_price : ℚ),
      yes_avg_price + no_avg_price < 1 →
      (StraddlePosition.new market_id s s yes_avg_price no_avg_price).guaranteed_profit
          = s * (1 - (yes_avg_price + no_avg_price))
      ∧ (∀ winning_side : Side,
          straddle_resolution_pnl
              (StraddlePosition.new market_id s s yes_avg_price no_avg_price) winning_side
            ≥ (StraddlePosition.new market_id s s yes_avg_price no_avg_price).guaranteed_profit)
      ∧ (∀ (portfolio : Portfolio) (winning_side : Side),
          portfolio.positions = [] →
          portfolio.straddles = [StraddlePosition.new market_id s s yes_avg_price no_avg_price] →
          (record_resolution portfolio market_id winning_side).total_pnl
            = portfolio.total_pnl
              + straddle_resolution_pnl
                  (StraddlePosition.new market_id s s yes_avg_price no_avg_price) winning_side) := by
  intro market_id s yp np _
  have hpnl : ∀ winning_side : Side,
      straddle_resolution_pnl (StraddlePosition.new market_id s s yp np) winning_side
        = s * (1 - (yp + np)) := by
    intro w
    unfold straddle_resolution_pnl StraddlePosition.new StraddlePosition.imbalance
      StraddlePosition.excess_side
    simp only [min_self, lt_self_iff_false, if_false, sub_self, abs_zero]
    ring
  refine ⟨?_, fun w => ?_, fun portfolio w hpos hstr => ?_⟩
  · unfold StraddlePosition.new
    simp [min_self]
  · rw [hpnl w]
    unfold StraddlePosition.new
    simp [min_self]
  · unfold record_resolution
    rw [hpos, hstr]
    simp [StraddlePosition.new]

/-- Witness for C5: a 10-share straddle bought at combined 0.92 guarantees a
profit of 0.8, realized exactly on a YES resolution. -/
theorem straddle_guaranteed_profit_witness :
    (StraddlePosition.new "m" 10 10 (45/100) (47/100)).guaranteed_profit
        = 10 * (1 - (45/100 + 47/100))
    ∧ straddle_resolution_pnl (StraddlePosition.new "m" 10 10 (45/100) (47/100)) .Yes
        ≥ (StraddlePosition.new "m" 10 10 (45/100) (47/100)).guaranteed_profit :=
  ⟨(straddle_guaranteed_profit "m" 10 (45/100) (47/100) (by norm_num)).1,
   (straddle_guaranteed_profit "m" 10 (45/100) (47/100) (by norm_num)).2.1 .Yes⟩

/-- C7: a SELL fill against a matching open position books realized P&L
equal to `(exit_price − avg_entry_price) × fill_size − fee` into both the
daily and total P&L; a profitable close resets the consecutive-loss counter
and a losing close increments it by one. -/
theorem record_fill_sell_close_pnl :
    ∀ (portfolio : Portfolio) (fill : Fill) (market_id : String) (side : Side)
      (strategy_tag : String) (pos : Position),
      fill.side = .Sell →
      portfolio.positions.find? (fill_position_matches fill market_id) = some pos →
      ((record_fill portfolio fill market_id side strategy_tag).daily_pnl
          = portfolio.daily_pnl
            + ((fill.price - pos.avg_entry_price) * fill.size - fill.fee)
      ∧ (record_fill portfolio fill market_id side strategy_tag).total_pnl
          = portfolio.total_pnl
            + ((fill.price - pos.avg_entry_price) * fill.size - fill.fee)
      ∧ ((fill.price - pos.avg_entry_price) * fill.size - fill.fee > 0 →
          (record_fill portfolio fill market_id side strategy_tag).consecutive_losses = 0)
      ∧ ((fill.price - pos.avg_entry_price) * fill.size - fill.fee < 0 →
          (record_fill portfolio fill market_id side strategy_tag).consecutive_losses
            = portfolio.consecutive_losses + 1)) := by
  intro portfolio fill market_id side strategy_tag pos hside hfind
  have hpnl : fill.price * fill.size - fill.fee - pos.avg_entry_price * fill.size
      = (fill.price - pos.avg_entry_price) * fill.size - fill.fee := by ring
  unfold record_fill
  rw [hside]
  simp only [hfind]
  refine ⟨by rw [← hpnl], by rw [← hpnl], fun hpos => ?_, fun hneg => ?_⟩
  · simp only [← hpnl] at hpos
    simp [hpos]
  · simp only [← hpnl] at hneg
    have : ¬ (fill.price * fill.size - fill.fee - pos.avg_entry_price * fill.size > 0) := by
      linarith
    simp [this]

/-- Witness for C7: selling 10 shares entered at 0.50 for 0.60 with a 0.01
fee realizes P&L 0.99 and resets the loss streak. -/
theorem record_fill_sell_close_pnl_witness :
    (record_fill
      { Portfolio.new 100 with positions :=
          [{ market_id := "m", token_id := "t", side := .Yes, size := 10,
             avg_entry_price := 50/100, unrealized_pnl := 0, strategy_tag := "lag" }] }
      { order_id := "o", token_id := "t", side := .Sell, price := 60/100,
        size := 10, fee := 1/100 }
      "m" .Yes "lag").consecutive_losses = 0 :=
  (record_fill_sell_close_pnl
    { Portfolio.new 100 with positions :=
        [{ market_id := "m", token_id := "t", side := .Yes, size := 10,
           avg_entry_price := 50/100, unrealized_pnl := 0, strategy_tag := "lag" }] }
    { order_id := "o", token_id := "t", side := .Sell, price := 60/100,
      size := 10, fee := 1/100 }
    "m" .Yes "lag"
    { market_id := "m", token_id := "t", side := .Yes, size := 10,
      avg_entry_price := 50/100, unrealized_pnl := 0, strategy_tag := "lag" }
    rfl (by simp [fill_position_matches])).2.2.1 (by norm_num)

/-- C10: a SELL fill with no open position matching its token and market
leaves the portfolio entirely unchanged. -/
theorem record_fill_sell_no_match_frame :
    ∀ (portfolio : Portfolio) (fill : Fill) (market_id : String) (side : Side)
      (strategy_tag : String),
      fill.side = .Sell →
      portfolio.positions.find? (fill_position_matches fill market_id) = none →
      record_fill portfolio fill market_id side strategy_tag = portfolio := by
  intro portfolio fill market_id side strategy_tag hside hfind
  unfold record_fill
  rw [hside]
  simp only [hfind]

/-- Witness for C10: a SELL fill against an empty book of positions is a
no-op. -/
theorem record_fill_sell_no_match_frame_witness :
    record_fill (Portfolio.new 100)
      { order_id := "o", token_id := "t", side := .Sell, price := 60/100,
        size := 10, fee := 1/100 }
      "m" .Yes "lag" = Portfolio.new 100 :=
  record_fill_sell_no_match_frame (Portfolio.new 100)
    { order_id := "o", token_id := "t", side := .Sell, price := 60/100,
      size := 10, fee := 1/100 }
    "m" .Yes "lag" rfl rfl

/-- Helper for C8: a resting force order is never replaced. -/
lemma needs_replacement_force (d : ExitOrderType) :
    needs_replacement ⟨true, .force⟩ d = false := by
  cases d <;> rfl

/-- C8: the exit controller's resting sell order never de-escalates.
Replacement happens exactly when no order rests or the desired type strictly
escalates the current one (tp→sl, tp→force, sl→force); across any tick a
surviving resting order's type never decreases in rank; and a position whose
resting sell order is of type force is left untouched by any sequence of
ticks. -/
theorem exit_order_no_deescalation :
    (∀ (st : ExitState) (desired : ExitOrderType),
      needs_replacement st desired = true
        ↔ (st.has_order = false ∨ exit_rank st.order_type < exit_rank desired))
    ∧ (∀ (st : ExitState) (remaining hold_secs pct_change : ℚ) (place_ok : Bool),
        st.has_order = true →
        (exit_step st remaining hold_secs pct_change place_ok).has_order = true →
        exit_rank st.order_type
          ≤ exit_rank (exit_step st remaining hold_secs pct_change place_ok).order_type)
    ∧ (∀ ticks : List ExitTick,
        exit_run ⟨true, .force⟩ ticks = ⟨true, .force⟩) := by
  have hiff : ∀ (st : ExitState) (desired : ExitOrderType),
      needs_replacement st desired = true
        ↔ (st.has_order = false ∨ exit_rank st.order_type < exit_rank desired) := by
    rintro ⟨has_order, order_type⟩ desired
    cases has_order <;> cases order_type <;> cases desired <;> decide
  refine ⟨hiff, ?_, ?_⟩
  · intro st remaining hold_secs pct_change place_ok hpre hpost
    simp only [exit_step] at hpost ⊢
    by_cases hrep : needs_replacement st (desired_exit_type remaining hold_secs pct_change) = true
    · rw [if_pos hrep] at hpost ⊢
      by_cases hpl : place_ok = true
      · rw [if_pos hpl]
        rcases (hiff st _).mp hrep with hno | hlt
        · rw [hpre] at hno
          exact absurd hno (by simp)
        · exact le_of_lt hlt
      · rw [if_neg hpl] at hpost
        simp at hpost
    · rw [if_neg hrep] at hpost ⊢
  · intro ticks
    induction ticks with
    | nil => rfl
    | cons t ts ih =>
      have hstep : exit_step ⟨true, .force⟩ t.remaining t.hold_secs t.pct_change t.place_ok
          = ⟨true, .force⟩ := by
        simp only [exit_step, needs_replacement_force]
        simp
      rw [exit_run, hstep, ih]

/-- Witness for C8: a resting stop-loss order with plenty of time remaining
keeps its rank through a tick, and a force order survives a burst of ticks
unchanged. -/
theorem exit_order_no_deescalation_witness :
    exit_rank (ExitState.mk true .sl).order_type
        ≤ exit_rank (exit_step ⟨true, .sl⟩ 200 0 0 true).order_type
    ∧ exit_run ⟨true, .force⟩ [⟨200, 0, 0, true⟩, ⟨10, 0, 0, true⟩] = ⟨true, .force⟩ :=
  ⟨exit_order_no_deescalation.2.1 ⟨true, .sl⟩ 200 0 0 true rfl
    (by
      simp only [exit_step]
      rw [show desired_exit_type 200 0 0 = ExitOrderType.tp from by
        norm_num [desired_exit_type, MAX_HOLD_SECS, STOP_LOSS_PCT, PRE_RESOLVE_EXIT_SECS]]
      decide),
   exit_order_no_deescalation.2.2 [⟨200, 0, 0, true⟩, ⟨10, 0, 0, true⟩]⟩

/-- Ceiling alignment to a grid of `d` micro-units: divisible, at least the
raw value, and less than one grid step above it. -/
lemma ceil_grid_bounds (d n : ℕ) (hd : 0 < d) :
    d ∣ ((n + d - 1) / d) * d ∧ n ≤ ((n + d - 1) / d) * d
      ∧ ((n + d - 1) / d) * d < n + d := by
  have h := Nat.div_add_mod (n + d - 1) d
  have h2 := Nat.mod_lt (n + d - 1) hd
  refine ⟨⟨(n + d - 1) / d, mul_comm _ _⟩, ?_, ?_⟩ <;>
    · rw [mul_comm]
      generalize d * ((n + d - 1) / d) = m at h ⊢
      omega

/-- Floor alignment to a grid of `d` micro-units: divisible, at most the raw
value, and less than one grid step below it. -/
lemma floor_grid_bounds (d n : ℕ) (hd : 0 < d) :
    d ∣ (n / d) * d ∧ (n / d) * d ≤ n ∧ n < (n / d) * d + d := by
  have h := Nat.div_add_mod n d
  have h2 := Nat.mod_lt n hd
  refine ⟨⟨n / d, mul_comm _ _⟩, ?_, ?_⟩ <;>
    · rw [mul_comm]
      generalize d * (n / d) = m at h ⊢
      omega

/-- Counterexample to C9 as stated: for the limit BUY at price 0.101 and size
1.11 the builder ceils the collateral micro amount to 112200 whereas
round-to-nearest at 4 decimals gives 112100; and a market SELL of 1.11 shares
at price 0.11 produces the collateral amount 122100, which does not lie on
the 2-decimal grid. -/
theorem tick_rounding_claim_false :
    ¬ tick_rounding_claim
    ∧ (build_amounts .GTC .Buy (101/1000) (111/100)).1 = 112200
    ∧ round_to_mult 100 (collateral_raw_micro (101/1000) (111/100)) = 112100
    ∧ market_collateral_micro .Sell (111/100) (11/100) = 122100
    ∧ ¬ (10000 ∣ (122100 : ℕ)) := by
  have hcol : collateral_raw_micro (101/1000) (111/100) = 112110 := by
    norm_num [collateral_raw_micro, rustRound]
    omega
  have hlim : ¬ (OrderType.GTC = OrderType.FOK ∨ OrderType.GTC = OrderType.FAK) := by
    decide
  have hbs : ¬ (OrderSide.Buy = OrderSide.Sell) := by decide
  have hbuild : (build_amounts .GTC .Buy (101/1000) (111/100)).1 = 112200 := by
    norm_num [build_amounts, hcol, hlim, hbs]
  have hround : round_to_mult 100 (collateral_raw_micro (101/1000) (111/100)) = 112100 := by
    rw [hcol]
    norm_num [round_to_mult, rustRound]
    omega
  have h111 : (⌊(111/100 : ℚ) * 100⌋ : ℤ).toNat = 111 := by
    have hf : (⌊(111/100 : ℚ) * 100⌋ : ℤ) = 111 := by norm_num
    rw [hf]
    rfl
  have hmkt : market_collateral_micro .Sell (111/100) (11/100) = 122100 := by
    norm_num [market_collateral_micro, build_market_amounts, rustRound, h111,
      show Int.toNat (111:ℤ) = 111 from rfl]
    omega
  refine ⟨?_, hbuild, hround, hmkt, by decide⟩
  intro h
  have h1 := (h (101/1000) (111/100) 1 (by norm_num) (by norm_num) (by norm_num)).1.1
  rw [hbuild, hround] at h1
  exact absurd h1 (by norm_num)

/-- C9 as amended: the micro-unit amounts obey the tick grid by order type.
Limit BUYs ceil the collateral amount to the 4-decimal grid (100 micro-units)
and floor the share amount to the 2-decimal grid (10000 micro-units); limit
SELLs ceil the share amount to the 2-decimal grid and floor the collateral
amount to the 4-decimal grid; market orders through the limit builder ceil
the maker amount to the 2-decimal grid and floor the taker amount to the
4-decimal grid; the dedicated market-order builder puts the BUY collateral on
the 2-decimal grid (flooring the requested dollars) with shares on the
4-decimal grid, and the SELL shares on the 2-decimal grid with collateral on
the 4-decimal grid. -/
theorem order_builder_tick_rounding :
    ∀ price size amount : ℚ,
      (100 ∣ (build_amounts .GTC .Buy price size).1
        ∧ collateral_raw_micro price size ≤ (build_amounts .GTC .Buy price size).1
        ∧ (build_amounts .GTC .Buy price size).1 < collateral_raw_micro price size + 100)
      ∧ (10000 ∣ (build_amounts .GTC .Buy price size).2
        ∧ (build_amounts .GTC .Buy price size).2 ≤ size_trunc_micro size
        ∧ size_trunc_micro size < (build_amounts .GTC .Buy price size).2 + 10000)
      ∧ (10000 ∣ (build_amounts .GTC .Sell price size).1
        ∧ size_trunc_micro size ≤ (build_amounts .GTC .Sell price size).1
        ∧ (build_amounts .GTC .Sell price size).1 < size_trunc_micro size + 10000)
      ∧ (100 ∣ (build_amounts .GTC .Sell price size).2
        ∧ (build_amounts .GTC .Sell price size).2 ≤ collateral_raw_micro price size
        ∧ collateral_raw_micro price size < (build_amounts .GTC .Sell price size).2 + 100)
      ∧ (build_amounts .GTD .Buy price size = build_amounts .GTC .Buy price size
        ∧ build_amounts .GTD .Sell price size = build_amounts .GTC .Sell price size)
      ∧ (10000 ∣ (build_amounts .FOK .Buy price size).1
        ∧ 100 ∣ (build_amounts .FOK .Buy price size).2
        ∧ 10000 ∣ (build_amounts .FOK .Sell price size).1
        ∧ 100 ∣ (build_amounts .FOK .Sell price size).2)
      ∧ (build_amounts .FAK .Buy price size = build_amounts .FOK .Buy price size
        ∧ build_amounts .FAK .Sell price size = build_amounts .FOK .Sell price size)
      ∧ (market_collateral_micro .Buy amount price = (⌊amount * 100⌋).toNat * 10000
        ∧ 100 ∣ market_shares_micro .Buy amount price)
      ∧ (market_shares_micro .Sell amount price = (⌊amount * 100⌋).toNat * 10000
        ∧ 100 ∣ market_collateral_micro .Sell amount price) := by
  intro price size amount
  have hbuy1 : (build_amounts .GTC .Buy price size).1
      = ((collateral_raw_micro price size + 100 - 1) / 100) * 100 := rfl
  have hbuy2 : (build_amounts .GTC .Buy price size).2
      = (size_trunc_micro size / 10000) * 10000 := rfl
  have hsell1 : (build_amounts .GTC .Sell price size).1
      = ((size_trunc_micro size + 10000 - 1) / 10000) * 10000 := rfl
  have hsell2 : (build_amounts .GTC .Sell price size).2
      = (collateral_raw_micro price size / 100) * 100 := rfl
  refine ⟨?_, ?_, ?_, ?_, ⟨rfl, rfl⟩, ⟨?_, ?_, ?_, ?_⟩, ⟨rfl, rfl⟩, ⟨rfl, ?_⟩, ⟨rfl, ?_⟩⟩
  · rw [hbuy1]
    exact ceil_grid_bounds 100 _ (by norm_num)
  · rw [hbuy2]
    exact floor_grid_bounds 10000 _ (by norm_num)
  · rw [hsell1]
    exact ceil_grid_bounds 10000 _ (by norm_num)
  · rw [hsell2]
    exact floor_grid_bounds 100 _ (by norm_num)
  · exact (ceil_grid_bounds 10000 (collateral_raw_micro price size) (by norm_num)).1
  · exact (floor_grid_bounds 100 (size_trunc_micro size) (by norm_num)).1
  · exact (ceil_grid_bounds 10000 (size_trunc_micro size) (by norm_num)).1
  · exact (floor_grid_bounds 100 (collateral_raw_micro price size) (by norm_num)).1
  · obtain ⟨k, hk⟩ : ∃ k, market_shares_micro .Buy amount price = k * 100 := ⟨_, rfl⟩
    rw [hk]
    exact Nat.dvd_mul_left 100 k
  · obtain ⟨k, hk⟩ : ∃ k, market_collateral_micro .Sell amount price = k * 100 := ⟨_, rfl⟩
    rw [hk]
    exact Nat.dvd_mul_left 100 k

/-- Counterexample to C4 as stated: the round-trip law is quantified over any
current price, but with current price 0 (and p = 0.3, t = 1, σ = 1, so that
all the claim's other side conditions hold) calibration returns reference
price 0 and the fair-probability model then returns 1/2, not 0.3. -/
theorem calibrate_round_trip_fails_at_zero :
    (0:ℝ) < 1 ∧ (1e-10 : ℝ) ≤ 1 * Real.sqrt 1 ∧ (0.02:ℝ) ≤ 0.3 ∧ (0.3:ℝ) ≤ 0.98
    ∧ fair_prob_up 0 (calibrate_reference_price 0 0.3 1 1) 1 1 0 = 1/2
    ∧ (1/2 : ℝ) ≠ 0.3 := by
  refine ⟨by norm_num, by rw [Real.sqrt_one]; norm_num, by norm_num, by norm_num, ?_,
    by norm_num⟩
  have hcal : calibrate_reference_price 0 0.3 1 1 = 0 := by
    simp only [calibrate_reference_price]
    split_ifs <;> simp
  rw [hcal]
  unfold fair_prob_up
  norm_num

/-- C4 as amended: the round-trip law holds for every nonzero current price
whose calibration denominator `1 + Φ⁻¹(p)·σ·√t` is nonzero: with horizon
`t > 0`, volatility `σ > 0`, `σ·√t ≥ 10⁻¹⁰` and a book probability `p` inside
the clamp band `[0.02, 0.98]`, calibrating the reference price and feeding it
back into the fair-probability model (with zero momentum adjustment)
recovers `p`. -/
theorem calibrate_fair_prob_round_trip :
    ∀ (current_price p minutes_remaining vol_per_min : ℝ),
      0 < minutes_remaining → 0 < vol_per_min →
      1e-10 ≤ vol_per_min * Real.sqrt minutes_remaining →
      0.02 ≤ p → p ≤ 0.98 →
      current_price ≠ 0 →
      1 + PhiInv p * (vol_per_min * Real.sqrt minutes_remaining) ≠ 0 →
      fair_prob_up current_price
        (calibrate_reference_price current_price p minutes_remaining vol_per_min)
        minutes_remaining vol_per_min 0 = p := by
  intro c p t σ ht hσ hrv h02 h98 hc hden
  have hsq0 : 0 < Real.sqrt t := Real.sqrt_pos.mpr ht
  have hrv0 : σ * Real.sqrt t ≠ 0 := ne_of_gt (mul_pos hσ hsq0)
  have hclamp : min (max p 0.02) 0.98 = p := by
    rw [max_eq_left h02, min_eq_left h98]
  have hnotlt : ¬ (σ * Real.sqrt t < 1e-10) := not_lt.mpr hrv
  have hcal : calibrate_reference_price c p t σ
      = c / (1 + PhiInv p * (σ * Real.sqrt t)) := by
    simp only [calibrate_reference_price, hclamp]
    rw [if_neg hnotlt]
  rw [hcal]
  have href : c / (1 + PhiInv p * (σ * Real.sqrt t)) ≠ 0 := div_ne_zero hc hden
  have hnt : ¬ (t ≤ 0) := not_le.mpr ht
  have hor : ¬ (c / (1 + PhiInv p * (σ * Real.sqrt t)) = 0 ∨ σ = 0) := by
    push_neg
    exact ⟨href, ne_of_gt hσ⟩
  have hpct : (c - c / (1 + PhiInv p * (σ * Real.sqrt t)))
      / (c / (1 + PhiInv p * (σ * Real.sqrt t)))
      = PhiInv p * (σ * Real.sqrt t) := by
    field_simp
    ring
  simp only [fair_prob_up]
  rw [if_neg hnt, if_neg hor, if_neg hrv0, hpct,
    mul_div_cancel_right₀ _ hrv0, add_zero, Phi_PhiInv h02 h98,
    max_eq_left (by linarith : (0.01:ℝ) ≤ p), min_eq_left (by linarith : p ≤ (0.99:ℝ))]

/-- Witness for C4 (amended): at current price 1, book probability one half,
one minute remaining and unit volatility the round trip recovers one half. -/
theorem calibrate_fair_prob_round_trip_witness :
    fair_prob_up 1 (calibrate_reference_price 1 (1/2) 1 1) 1 1 0 = 1/2 :=
  calibrate_fair_prob_round_trip 1 (1/2) 1 1 (by norm_num) (by norm_num)
    (by rw [Real.sqrt_one]; norm_num) (by norm_num) (by norm_num) (by norm_num)
    (by rw [PhiInv_half]; norm_num)

/-- Helper for C6: every element of `update_first p f l` satisfies `P` when
every element of `l` does, the first element found by `p` is `a`, and `f a`
satisfies `P`. -/
lemma update_first_forall {α : Type} (P : α → Prop) (p : α → Bool) (f : α → α) :
    ∀ (l : List α) (a : α), l.find? p = some a →
      (∀ x ∈ l, P x) → P (f a) → ∀ x ∈ update_first p f l, P x := by
  intro l
  induction l with
  | nil =>
    intro a hfind
    simp at hfind
  | cons b l ih =>
    intro a hfind hl hfa x hx
    by_cases hb : p b = true
    · rw [List.find?_cons_of_pos _ hb] at hfind
      have hba : b = a := by injection hfind
      subst hba
      simp only [update_first, if_pos hb] at hx
      rcases List.mem_cons.mp hx with rfl | hx2
      · exact hfa
      · exact hl x (List.mem_cons_of_mem _ hx2)
    · rw [List.find?_cons_of_neg _ hb] at hfind
      simp only [update_first, if_neg hb] at hx
      rcases List.mem_cons.mp hx with rfl | hx2
      · exact hl x (List.mem_cons_self _ _)
      · exact ih a hfind (fun y hy => hl y (List.mem_cons_of_mem _ hy)) hfa x hx2

/-- Helper for C6: a valid fill keeps capital non-negative, keeps all
position sizes non-negative, and does not touch the straddles. -/
lemma record_fill_inv (portfolio : Portfolio) (fill : Fill) (market_id : String)
    (side : Side) (strategy_tag : String)
    (hv : ValidFill portfolio fill market_id = true)
    (hcap : 0 ≤ portfolio.capital)
    (hpos : ∀ pos ∈ portfolio.positions, 0 ≤ pos.size) :
    0 ≤ (record_fill portfolio fill market_id side strategy_tag).capital
    ∧ (∀ pos ∈ (record_fill portfolio fill market_id side strategy_tag).positions,
        0 ≤ pos.size)
    ∧ (record_fill portfolio fill market_id side strategy_tag).straddles
        = portfolio.straddles := by
  cases hside : fill.side with
  | Buy =>
    simp only [ValidFill, hside, Bool.and_eq_true, decide_eq_true_eq] at hv
    obtain ⟨⟨⟨hprice, hsize⟩, hfee⟩, hcost⟩ := hv
    simp only [record_fill, hside]
    refine ⟨by simp; linarith, ?_, by simp⟩
    by_cases hfind : (portfolio.positions.find?
        (fill_position_matches fill market_id)).isSome
    · obtain ⟨pos, hpos_eq⟩ := Option.isSome_iff_exists.mp hfind
      simp only [hfind, if_true]
      refine update_first_forall (fun q => 0 ≤ q.size) _ _ portfolio.positions pos
        hpos_eq hpos ?_
      have := hpos pos (List.mem_of_find?_eq_some hpos_eq)
      simpa using add_nonneg this hsize
    · simp only [hfind, if_false]
      intro q hq
      rcases List.mem_append.mp hq with hq | hq
      · exact hpos q hq
      · simp at hq
        rw [hq]
        exact hsize
  | Sell =>
    simp only [ValidFill, hside, Bool.and_eq_true, decide_eq_true_eq] at hv
    cases hfind : portfolio.positions.find? (fill_position_matches fill market_id) with
    | none =>
      simp only [record_fill, hside, hfind]
      exact ⟨hcap, hpos, trivial⟩
    | some pos =>
      rw [hfind] at hv
      simp only [Bool.and_eq_true, decide_eq_true_eq] at hv
      obtain ⟨⟨⟨hprice, hsize⟩, hfee⟩, hnot, hle⟩ := hv
      simp only [record_fill, hside, hfind]
      refine ⟨by linarith, ?_, by simp⟩
      refine update_first_forall (fun q => 0 ≤ q.size) _ _ portfolio.positions pos
        hfind hpos ?_
      simpa using hle

/-- Helper for C6: a market resolution credits a non-negative payout and
preserves non-negativity of the surviving position and straddle sizes. -/
lemma record_resolution_inv (portfolio : Portfolio) (market_id : String)
    (winning_side : Side)
    (hcap : 0 ≤ portfolio.capital)
    (hpos : ∀ pos ∈ portfolio.positions, 0 ≤ pos.size)
    (hstr : ∀ s ∈ portfolio.straddles, 0 ≤ s.yes_size ∧ 0 ≤ s.no_size) :
    0 ≤ (record_resolution portfolio market_id winning_side).capital
    ∧ (∀ pos ∈ (record_resolution portfolio market_id winning_side).positions,
        0 ≤ pos.size)
    ∧ (∀ s ∈ (record_resolution portfolio market_id winning_side).straddles,
        0 ≤ s.yes_size ∧ 0 ≤ s.no_size) := by
  have hpay : 0 ≤ ((portfolio.positions.filter
      (fun pos => pos.market_id = market_id)).map
      (position_resolution_payout winning_side)).sum := by
    refine List.sum_nonneg ?_
    intro x hx
    obtain ⟨pos, hmem, rfl⟩ := List.mem_map.mp hx
    have hmem' := (List.mem_filter.mp hmem).1
    unfold position_resolution_payout
    split_ifs
    · exact hpos pos hmem'
    · exact le_refl 0
  have hspay : 0 ≤ ((portfolio.straddles.filter
      (fun s => s.market_id = market_id)).map
      (fun s => straddle_resolution_payout s winning_side)).sum := by
    refine List.sum_nonneg ?_
    intro x hx
    obtain ⟨s, hmem, rfl⟩ := List.mem_map.mp hx
    have hmem' := (List.mem_filter.mp hmem).1
    have hys := (hstr s hmem').1
    have hns := (hstr s hmem').2
    unfold straddle_resolution_payout
    have hmin : 0 ≤ min s.yes_size s.no_size := le_min hys hns
    have hexc : (0:ℚ) ≤ match s.excess_side with
        | some excess_side => if excess_side = winning_side then s.imbalance else 0
        | none => 0 := by
      cases s.excess_side with
      | none => exact le_refl 0
      | some es =>
        simp only
        split_ifs
        · exact abs_nonneg _
        · exact le_refl 0
    exact add_nonneg hmin hexc
  simp only [record_resolution]
  refine ⟨?_, ?_, ?_⟩
  · have := add_nonneg hpay hspay
    linarith
  · intro pos hmem
    exact hpos pos (List.mem_filter.mp hmem).1
  · intro s hmem
    exact hstr s (List.mem_filter.mp hmem).1

/-- Helper for C6: the invariant is preserved along any valid event
sequence. -/
lemma run_events_inv :
    ∀ (events : List TradeEvent) (portfolio : Portfolio),
      valid_events portfolio events = true →
      0 ≤ portfolio.capital →
      (∀ pos ∈ portfolio.positions, 0 ≤ pos.size) →
      (∀ s ∈ portfolio.straddles, 0 ≤ s.yes_size ∧ 0 ≤ s.no_size) →
      0 ≤ (run_events portfolio events).capital := by
  intro events
  induction events with
  | nil =>
    intro p _ hcap _ _
    exact hcap
  | cons e es ih =>
    intro p hv hcap hpos hstr
    rw [run_events]
    cases e with
    | fill f market_id side strategy_tag =>
      simp only [valid_events, Bool.and_eq_true] at hv
      obtain ⟨hv1, hv2⟩ := hv
      have h := record_fill_inv p f market_id side strategy_tag hv1 hcap hpos
      refine ih _ hv2 h.1 h.2.1 ?_
      rw [show (apply_event p (.fill f market_id side strategy_tag)).straddles
        = p.straddles from h.2.2]
      exact hstr
    | resolution market_id winning_side =>
      simp only [valid_events, Bool.true_and] at hv
      have h := record_resolution_inv p market_id winning_side hcap hpos hstr
      exact ih _ hv h.1 h.2.1 h.2.2

/-- C6: starting from a positive capital, no sequence of valid fills and
resolutions drives the portfolio's capital negative. -/
theorem capital_never_negative :
    ∀ starting_capital : ℚ, 0 < starting_capital →
      ∀ events : List TradeEvent,
        valid_events (Portfolio.new starting_capital) events = true →
        0 ≤ (run_events (Portfolio.new starting_capital) events).capital := by
  intro c hc events hv
  refine run_events_inv events (Portfolio.new c) hv (le_of_lt hc) ?_ ?_ <;>
    simp [Portfolio.new]

/-- Witness for C6: a valid buy of 10 shares at 0.50 with a 1.00 fee followed
by a resolution leaves the 100-capital portfolio non-negative. -/
theorem capital_never_negative_witness :
    0 ≤ (run_events (Portfolio.new 100)
      [.fill { order_id := "o", token_id := "t", side := .Buy, price := 1/2,
               size := 10, fee := 1 } "m" .Yes "lag",
       .resolution "m" .Yes]).capital :=
  capital_never_negative 100 (by norm_num)
    [.fill { order_id := "o", token_id := "t", side := .Buy, price := 1/2,
             size := 10, fee := 1 } "m" .Yes "lag",
     .resolution "m" .Yes]
    (by
      simp only [valid_events, apply_event, ValidFill, Bool.and_eq_true, decide_eq_true_eq]
      norm_num [Portfolio.new])

end Sattebaaz
